import Mathlib

/-!
Verification development for the noname circuit writer and kimchi prover
excerpt. The definitions below are a shallow embedding of
src/circuit_writer/mod.rs and src/backends/kimchi/prover.rs; parts of the
repository that the excerpt calls but does not contain (writer.rs, var.rs,
the witness generator, the kimchi library) are either taken as explicit
parameters of the embedded functions or modelled from the specification, as
indicated in each doc comment.
-/

namespace Noname

/-- Source spans are opaque position markers; we model them as natural
numbers, with `Span::default()` as `0`. -/
abbrev Span := Nat

/-- Modulus of the field the kimchi Vesta backend uses for circuit values and
coefficients (the source `VestaField`). -/
def vestaP : Nat :=
  28948022309329048855892746252171976963363056481941560715954676764349967630337

/-- Field elements of the backend (`VestaField` in the source). -/
abbrev VestaField := ZMod vestaP

/-- Attribute kinds on function arguments; the excerpt only distinguishes the
`pub` marker (`AttributeKind::Pub`) from anything else. -/
inductive AttributeKind where
  | Pub
  | otherAttr (name : String)
  deriving DecidableEq

/-- An attribute together with its source span. -/
structure Attribute where
  kind : AttributeKind
  span : Span
  deriving DecidableEq

/-- Error kinds of the source `ErrorKind` that the excerpt constructs;
`otherKind` stands for any kind built by code outside the excerpt (for
example by `size_of` or `constrain_inputs_to_main`). -/
inductive ErrorKind where
  | NoMainFunction
  | InvalidAttribute (attr : AttributeKind)
  | PrivateInputNotUsed
  | otherKind (msg : String)
  deriving DecidableEq

/-- A typed user-facing error: a kind plus the originating source span
(the source `Error`). -/
structure Error where
  kind : ErrorKind
  span : Span
  deriving DecidableEq

/-- Outcome of running a fragment of the compiler: success, a typed
user-facing error (`Err` in the source), or a process abort (`fatal` models
aborts from a Rust `panic`, `unimplemented`, failed `assert` or failed
`unwrap`). -/
inductive CResult (α : Type) where
  | ok (val : α)
  | err (e : Error)
  | fatal (msg : String)
  deriving DecidableEq

/-- True exactly when the result is a typed user-facing error. -/
def CResult.isErr {α : Type} : CResult α → Bool
  | .err _ => true
  | _ => false

/-- Type shapes of entry-function parameters (`TyKind` in the parser, which is
outside the excerpt): the constructors the excerpt distinguishes, with
`custom` standing for any other composite type. -/
inductive TyKind where
  | field
  | bool
  | array (elem : TyKind) (len : Nat)
  | custom (name : String)
  deriving DecidableEq

/-- A type with its source span. -/
structure Ty where
  kind : TyKind
  span : Span
  deriving DecidableEq

/-- An identifier with its source span. -/
structure Ident where
  value : String
  span : Span
  deriving DecidableEq

/-- An entry-function parameter (`FnArg`): optional attribute (`attribute` in
the source; `attribute` is a Lean keyword, hence `attr`), name, type. -/
structure FnArg where
  attr : Option Attribute
  name : Ident
  typ : Ty
  deriving DecidableEq

/-- Embeds the `len` computation of `generate_circuit`
(src/circuit_writer/mod.rs lines 130-140): `Field` and `Bool` have width 1, an
array has width its length when the element type is `Field` and otherwise hits
`unimplemented!()`, and any other type delegates to `size_of`, whose body is
outside the excerpt and is therefore a parameter. -/
def computeInputLen (sizeOf : TyKind → CResult Nat) : TyKind → CResult Nat
  | .field => .ok 1
  | .array t len => if t = .field then .ok len else .fatal "not implemented"
  | .bool => .ok 1
  | .custom s => sizeOf (.custom s)

/-- Observable calls made by the input-allocation phase of `generate_circuit`;
the bodies of `add_public_inputs`, `add_private_inputs`, `add_public_outputs`
and `constrain_inputs_to_main` are outside the excerpt, so the embedding
records each call as an event. -/
inductive Event where
  | addPublicInputs (name : String) (len : Nat) (span : Span)
  | addPrivateInputs (name : String) (len : Nat) (span : Span)
  | constrainInputs (tyk : TyKind) (span : Span)
  | addPublicOutputs (len : Nat) (span : Span)
  deriving DecidableEq

/-- Embeds one iteration of the argument loop of `generate_circuit`
(src/circuit_writer/mod.rs lines 122-168): compute the width, create public
input vars when the argument carries the `pub` attribute (any other attribute
is a typed `InvalidAttribute` error at the attribute span) or private input
vars when it carries none, then call `constrain_inputs_to_main` on the
argument type and span. `constrain_inputs_to_main` returns a `Result` and its
body is outside the excerpt, so its outcome is a parameter. -/
def processArg (sizeOf : TyKind → CResult Nat)
    (constrainOutcome : TyKind → Span → Option Error) (arg : FnArg) :
    CResult (List Event) :=
  match computeInputLen sizeOf arg.typ.kind with
  | .err e => .err e
  | .fatal m => .fatal m
  | .ok len =>
    match arg.attr with
    | some a =>
      if a.kind = .Pub then
        match constrainOutcome arg.typ.kind arg.typ.span with
        | some e => .err e
        | none =>
          .ok [.addPublicInputs arg.name.value len arg.name.span,
               .constrainInputs arg.typ.kind arg.typ.span]
      else .err { kind := .InvalidAttribute a.kind, span := a.span }
    | none =>
      match constrainOutcome arg.typ.kind arg.typ.span with
      | some e => .err e
      | none =>
        .ok [.addPrivateInputs arg.name.value len arg.name.span,
             .constrainInputs arg.typ.kind arg.typ.span]

/-- Embeds the whole argument loop of `generate_circuit`: arguments processed
in order, stopping at the first error or abort. -/
def processArgs (sizeOf : TyKind → CResult Nat)
    (constrainOutcome : TyKind → Span → Option Error) :
    List FnArg → CResult (List Event)
  | [] => .ok []
  | arg :: rest =>
    match processArg sizeOf constrainOutcome arg with
    | .err e => .err e
    | .fatal m => .fatal m
    | .ok evs =>
      match processArgs sizeOf constrainOutcome rest with
      | .err e => .err e
      | .fatal m => .fatal m
      | .ok evs2 => .ok (evs ++ evs2)

/-- Embeds the public-output creation of `generate_circuit`
(src/circuit_writer/mod.rs lines 171-178): a declared return type that is not
`Field` hits `unimplemented!()`; otherwise one public output is created at the
return-type span. -/
def processReturnType : Option Ty → CResult (List Event)
  | none => .ok []
  | some typ =>
    if typ.kind = .field then .ok [.addPublicOutputs 1 typ.span]
    else .fatal "not implemented"

/-- Concrete entry-function argument whose type is an array of booleans. -/
def argArrayOfBool : FnArg :=
  { attr := none,
    name := { value := "xs", span := 11 },
    typ := { kind := .array .bool 4, span := 12 } }

/-- A cell variable: a unique index plus the span that created it
(`CellVar` in var.rs). -/
structure CellVar where
  index : Nat
  span : Span
  deriving DecidableEq

/-- Gate kinds appearing in the excerpt. -/
inductive GateKind where
  | DoubleGeneric
  deriving DecidableEq

/-- One row of the constraint system. The `Gate` struct lives in writer.rs,
outside the excerpt; modelled from the spec (section 3): a kind tag, a vector
of field coefficients, plus the debug label and source span that `add_gate`
receives. The wire vars of each row are stored in `rows_of_vars`. -/
structure Gate where
  label : String
  typ : GateKind
  coeffs : List VestaField
  span : Span

/-- A buffered half-built double-generic gate (`PendingGate` in writer.rs,
modelled from the spec: label, wire vars, coefficients and source span). -/
structure PendingGate where
  label : String
  vars : List (Option CellVar)
  coeffs : List VestaField
  span : Span

/-- The fields of `CircuitWriter` that the finalization phase of
`generate_circuit` reads and writes. `mainSpan` is the span of the `main`
function recorded by the type checker (`fn_info.span`, read at
src/circuit_writer/mod.rs lines 206-210). -/
structure CWState where
  nextVariable : Nat
  rowsOfVars : List (List (Option CellVar))
  gates : List Gate
  privateInputIndices : List Nat
  pendingGenericGate : Option PendingGate
  finalized : Bool
  mainSpan : Span

/-- Modelled from the spec: `add_gate` (writer.rs, outside the excerpt)
appends one physical row — the gate row to `gates` and its wire vars as a new
row of `rows_of_vars` (spec section 4.3: a flushed pending gate becomes a
single physical row). -/
def addGate (st : CWState) (label : String) (kind : GateKind)
    (vars : List (Option CellVar)) (coeffs : List VestaField) (span : Span) :
    CWState :=
  { st with
    gates := st.gates ++ [{ label := label, typ := kind, coeffs := coeffs, span := span }],
    rowsOfVars := st.rowsOfVars ++ [vars] }

/-- Embeds the pending-gate flush of `generate_circuit`
(src/circuit_writer/mod.rs lines 183-192): take the buffered gate, if any, and
add it as one `DoubleGeneric` row carrying its label, vars, coefficients and
span. -/
def flushPendingGate (st : CWState) : CWState :=
  match st.pendingGenericGate with
  | some pending =>
    addGate { st with pendingGenericGate := none } pending.label .DoubleGeneric
      pending.vars pending.coeffs pending.span
  | none => st

/-- Embeds the `written_vars` collection of `generate_circuit`
(src/circuit_writer/mod.rs lines 194-200): the indices of all cell vars
occurring in some cell of `rows_of_vars` (a list, used through membership
as the set the source builds). -/
def writtenVars (rows : List (List (Option CellVar))) : List Nat :=
  (rows.map (fun row => row.filterMap (fun c => c.map CellVar.index))).flatten

/-- Panic message of the dangling-cellvar branch
(src/circuit_writer/mod.rs line 215). -/
def danglingMsg : String :=
  "there is a bug in the circuit_writer, some cellvar does not end up being a cellvar in the circuit!"

/-- Embeds the per-variable sanity loop of `generate_circuit`
(src/circuit_writer/mod.rs lines 202-218), over an explicit list of variable
ids: a variable id absent from the written set is a `PrivateInputNotUsed`
error at the main-function span when it is a private input index, and a panic
otherwise. -/
def sanityLoop (written priv : List Nat) (mainSpan : Span) :
    List Nat → CResult Unit
  | [] => .ok ()
  | v :: rest =>
    if v ∈ written then sanityLoop written priv mainSpan rest
    else if v ∈ priv then .err { kind := .PrivateInputNotUsed, span := mainSpan }
    else .fatal danglingMsg

/-- The sanity pass: the loop `for var in 0..next_variable`. -/
def sanityPass (written priv : List Nat) (mainSpan : Span)
    (nextVariable : Nat) : CResult Unit :=
  sanityLoop written priv mainSpan (List.range nextVariable)

/-- Embeds the tail of `generate_circuit`
(src/circuit_writer/mod.rs lines 183-223): flush the pending gate, run the
sanity pass on the resulting state, and on success mark the circuit
finalized. -/
def finalizeTail (st : CWState) : CResult CWState :=
  match sanityPass (writtenVars (flushPendingGate st).rowsOfVars)
      (flushPendingGate st).privateInputIndices
      (flushPendingGate st).mainSpan
      (flushPendingGate st).nextVariable with
  | .ok _ => .ok { flushPendingGate st with finalized := true }
  | .err e => .err e
  | .fatal m => .fatal m

/-- Concrete circuit-writer state whose single variable is written. -/
def stSimple : CWState :=
  { nextVariable := 1,
    rowsOfVars := [[some { index := 0, span := 0 }]],
    gates := [],
    privateInputIndices := [],
    pendingGenericGate := none,
    finalized := false,
    mainSpan := 0 }

/-- Concrete pending double-generic gate. -/
def pendingSample : PendingGate :=
  { label := "zero constraint",
    vars := [some { index := 0, span := 0 }],
    coeffs := [1],
    span := 3 }

/-- Concrete circuit-writer state with a buffered pending gate. -/
def stWithPending : CWState :=
  { nextVariable := 1,
    rowsOfVars := [],
    gates := [],
    privateInputIndices := [],
    pendingGenericGate := some pendingSample,
    finalized := false,
    mainSpan := 9 }

/-- Concrete circuit-writer state with an unused private input. -/
def stUnusedPriv : CWState :=
  { nextVariable := 1,
    rowsOfVars := [],
    gates := [],
    privateInputIndices := [0],
    pendingGenericGate := none,
    finalized := false,
    mainSpan := 7 }

/-- A cell position in the gate table: row and column
(`Cell` in writer.rs). -/
structure Cell where
  row : Nat
  col : Nat
  deriving DecidableEq

/-- A cell position with a debug annotation (`AnnotatedCell`). -/
structure AnnotatedCell where
  cell : Cell
  debug : String
  deriving DecidableEq

/-- Wiring status of a variable (`Wiring` in writer.rs): a standalone cell, or
an insertion-ordered list of cells that must all be equal. -/
inductive Wiring where
  | notWired (c : AnnotatedCell)
  | wired (cells : List AnnotatedCell)
  deriving DecidableEq

/-- The kimchi wire table, as a map from cell position to the cell position it
points at. Modelled from the spec: `to_kimchi_gate` (outside the excerpt)
initializes every wire slot to its own position (default self-wiring). -/
def defaultWires : Cell → Cell := fun c => c

/-- Embeds the inner assignment loop of `compile_to_indexes`
(src/backends/kimchi/prover.rs lines 92-98): for each cell of the traversal
list in order, set that cell's wire slot to point at the previous cell. -/
def wireCells (w : Cell → Cell) (prev : Cell) : List Cell → (Cell → Cell)
  | [] => w
  | c :: rest => wireCells (fun x => if x = c then prev else w x) c rest

/-- Embeds the per-class traversal order of `compile_to_indexes`
(src/backends/kimchi/prover.rs lines 89-98): start at the first cell and
traverse the remaining cells followed by the first cell again, closing the
cycle. -/
def wireClass (w : Cell → Cell) : List Cell → (Cell → Cell)
  | [] => w
  | first :: rest => wireCells w first (rest ++ [first])

/-- Embeds one iteration of the wiring loop of `compile_to_indexes`
(src/backends/kimchi/prover.rs lines 81-100), including the assertion that a
wired class has more than one cell (a failed Rust assert aborts the
process). -/
def processWiring (w : Cell → Cell) : Wiring → CResult (Cell → Cell)
  | .notWired _ => .ok w
  | .wired anns =>
    if 1 < (anns.map AnnotatedCell.cell).length then
      .ok (wireClass w (anns.map AnnotatedCell.cell))
    else .fatal "assertion failed: wired_cells.len() > 1"

/-- Embeds the whole wiring loop of `compile_to_indexes` over the values of
the wiring map. -/
def applyWirings (w : Cell → Cell) : List Wiring → CResult (Cell → Cell)
  | [] => .ok w
  | wi :: rest =>
    match processWiring w wi with
    | .ok w2 => applyWirings w2 rest
    | .err e => .err e
    | .fatal m => .fatal m

/-- Modelled from the spec: the wiring builder of writer.rs (outside the
excerpt). Declaring one more occurrence `c` of the variable keyed `key`
accumulates per-key insertion-ordered lists (spec sections 3 and 4.4): a first
occurrence is recorded as `notWired`, a second occurrence upgrades it to a
`wired` pair, and later occurrences append. -/
def addWire (m : List (Nat × Wiring)) (key : Nat) (c : AnnotatedCell) :
    List (Nat × Wiring) :=
  match m with
  | [] => [(key, .notWired c)]
  | (k, wv) :: rest =>
    if k = key then
      (k,
        match wv with
        | .notWired c0 => Wiring.wired [c0, c]
        | .wired l => Wiring.wired (l ++ [c])) :: rest
    else (k, wv) :: addWire rest key c

/-- The wiring map obtained by applying a sequence of occurrence declarations
to a starting map, in order. -/
def buildWiringFrom (m : List (Nat × Wiring)) :
    List (Nat × AnnotatedCell) → List (Nat × Wiring)
  | [] => m
  | (k, c) :: ops => buildWiringFrom (addWire m k c) ops

/-- The wiring map produced by a sequence of occurrence declarations, starting
from the empty map. -/
def buildWiring (ops : List (Nat × AnnotatedCell)) : List (Nat × Wiring) :=
  buildWiringFrom [] ops

/-- Concrete annotated cell. -/
def annA : AnnotatedCell := { cell := { row := 0, col := 0 }, debug := "a" }

/-- Another concrete annotated cell, at a distinct position. -/
def annB : AnnotatedCell := { cell := { row := 0, col := 1 }, debug := "b" }

/-- Output of the witness generator (`generate_witness`, outside the excerpt):
the witness table, the full public inputs, and the public outputs. -/
structure GeneratedWitness where
  allWitness : List (List VestaField)
  fullPublicInputs : List VestaField
  publicOutputs : List VestaField

/-- Observable steps of `ProverIndex::prove`, recorded in execution order. -/
inductive ProveStep where
  | generateWitness
  | debugPrintWitness
  | witnessPreCheck
  | createProof
  deriving DecidableEq

/-- Embeds `ProverIndex::prove` (src/backends/kimchi/prover.rs lines 166-212):
generate the witness; when `debug` is set, print it and pre-check it against
the full public inputs via the prover index (a failed pre-check aborts through
`unwrap`); then create the proof and return it together with the full public
inputs and the public outputs. The witness-generation outcome, the pre-check
predicate (`index.verify`) and proof construction (`ProverProof::create`,
whose failure is wrapped into a typed error) are outside the excerpt and are
parameters; the returned trace records the steps in order. -/
def proverIndexProve {π : Type}
    (genWitness : CResult GeneratedWitness)
    (indexVerify : List (List VestaField) → List VestaField → Bool)
    (createProof : List (List VestaField) → CResult π)
    (debug : Bool) :
    CResult (π × List VestaField × List VestaField) × List ProveStep :=
  match genWitness with
  | .err e => (.err e, [.generateWitness])
  | .fatal m => (.fatal m, [.generateWitness])
  | .ok gw =>
    let steps0 := [ProveStep.generateWitness] ++
      (if debug then [ProveStep.debugPrintWitness] else [])
    if debug then
      if indexVerify gw.allWitness gw.fullPublicInputs then
        match createProof gw.allWitness with
        | .ok prf => (.ok (prf, gw.fullPublicInputs, gw.publicOutputs),
            steps0 ++ [.witnessPreCheck, .createProof])
        | .err e => (.err e, steps0 ++ [.witnessPreCheck, .createProof])
        | .fatal m => (.fatal m, steps0 ++ [.witnessPreCheck, .createProof])
      else (.fatal "called unwrap on an Err value",
        steps0 ++ [.witnessPreCheck])
    else
      match createProof gw.allWitness with
      | .ok prf => (.ok (prf, gw.fullPublicInputs, gw.publicOutputs),
          steps0 ++ [.createProof])
      | .err e => (.err e, steps0 ++ [.createProof])
      | .fatal m => (.fatal m, steps0 ++ [.createProof])

/-- Value recipes attached to cell vars (`Value` in var.rs, outside the
excerpt; modelled from the spec, section 3): a compile-time constant, a read
from a public or private input slot, the deferred public output, or a hint
computing from other cell vars. -/
inductive Value where
  | constant (f : VestaField)
  | publicInputSlot (i : Nat)
  | privateInputSlot (i : Nat)
  | publicOutputVal (src : Option Nat)
  | hint (deps : List Nat) (compute : List VestaField → VestaField)

/-- Resolve a list of dependencies with an already-fixed resolver, failing if
any dependency fails. -/
def resolveList (g : Nat → Option VestaField) :
    List Nat → Option (List VestaField)
  | [] => some []
  | i :: rest =>
    match g i, resolveList g rest with
    | some v, some vs => some (v :: vs)
    | _, _ => none

/-- Modelled from the spec (section 4.6): resolve one cell var's value, with
explicit recursion fuel standing for the memoized dependency-order walk:
constants resolve immediately, input slots read the provided sequences, hints
resolve their dependencies first, and a public-output value is deferred (not
resolvable by this pass). -/
def computeVar (vals : Nat → Option Value) (pubIn privIn : List VestaField) :
    Nat → Nat → Option VestaField
  | 0 => fun _ => none
  | fuel + 1 => fun i =>
    match vals i with
    | none => none
    | some (.constant f) => some f
    | some (.publicInputSlot k) => pubIn.get? k
    | some (.privateInputSlot k) => privIn.get? k
    | some (.publicOutputVal _) => none
    | some (.hint deps f) =>
      Option.map f (resolveList (computeVar vals pubIn privIn fuel) deps)

/-- Cell-var table of the `test_public_output_constraint` scenario
(src/backends/kimchi/prover.rs lines 248-268): var 0 is the public input
carrying constant 1, var 1 is the public output, and var 2 is the result of
`add_const` on the input and the constant 1 (`add_const` is outside the
excerpt; modelled from the spec as a hint adding the constant to its one
dependency). -/
def roundTripVals : Nat → Option Value := fun i =>
  if i = 0 then some (.constant 1)
  else if i = 1 then some (.publicOutputVal none)
  else if i = 2 then some (.hint [0] (fun l => l.getD 0 0 + 1))
  else none

/-- Modelled from the spec (section 4.6): the public output is resolved last,
from the cells listed by the `return` statement; in the round-trip scenario
the returned cell is var 2. -/
def roundTripPublicOutput : Option VestaField :=
  computeVar roundTripVals [] [] 8 2

/-- Modelled from the spec (section 4.6): the full public inputs are the
public-input values followed by the public outputs; in the round-trip
scenario the public input is var 0 and the public output follows it. -/
def roundTripFullPublicInputs : Option (List VestaField) :=
  match computeVar roundTripVals [] [] 8 0, roundTripPublicOutput with
  | some a, some b => some [a, b]
  | _, _ => none

/-- Modelled from the spec (section 6): for a proof honestly generated from
the witness, the kimchi verifier accepts exactly when the supplied full public
inputs match the public rows committed in the witness. -/
def kimchiAccepts (witnessPublics : Option (List VestaField))
    (supplied : List VestaField) : Bool :=
  match witnessPublics with
  | some ps => decide (ps = supplied)
  | none => false

/-! Theorems. -/

theorem processArg_ok_constrain_mem (so : TyKind → CResult Nat)
    (co : TyKind → Span → Option Error) (arg : FnArg) (evs : List Event)
    (h : processArg so co arg = .ok evs) :
    Event.constrainInputs arg.typ.kind arg.typ.span ∈ evs := by
  unfold processArg at h
  split at h
  · exact absurd h (by simp)
  · exact absurd h (by simp)
  · split at h
    · split at h
      · split at h
        · exact absurd h (by simp)
        · cases h
          simp
      · exact absurd h (by simp)
    · split at h
      · exact absurd h (by simp)
      · cases h
        simp

/-- Claim C4: for every parameter of the entry function, `generate_circuit`
applies the type-specific validity constraints via `constrain_inputs_to_main`
regardless of whether the parameter carries the public attribute — on a
successful run of the argument loop, every argument (public or private) has a
constrain event for its type and span in the trace. -/
theorem inputs_constrained_regardless_of_visibility
    (so : TyKind → CResult Nat) (co : TyKind → Span → Option Error)
    (args : List FnArg) (tr : List Event)
    (h : processArgs so co args = .ok tr) :
    ∀ arg ∈ args, Event.constrainInputs arg.typ.kind arg.typ.span ∈ tr := by
  induction args generalizing tr with
  | nil =>
    intro arg ha
    exact absurd ha (by simp)
  | cons a rest ih =>
    intro arg ha
    unfold processArgs at h
    split at h
    · exact absurd h (by simp)
    · exact absurd h (by simp)
    · rename_i evs hevs
      split at h
      · exact absurd h (by simp)
      · exact absurd h (by simp)
      · rename_i evs2 hevs2
        cases h
        rcases List.mem_cons.mp ha with rfl | hmem
        · exact List.mem_append_left _ (processArg_ok_constrain_mem so co arg evs hevs)
        · exact List.mem_append_right _ (ih evs2 hevs2 arg hmem)

/-- Concrete arguments: one public field input and one private boolean
input. -/
def argPubField : FnArg :=
  { attr := some { kind := .Pub, span := 3 },
    name := { value := "x", span := 4 },
    typ := { kind := .field, span := 5 } }

/-- Second concrete argument, private and boolean. -/
def argPrivBool : FnArg :=
  { attr := none,
    name := { value := "y", span := 6 },
    typ := { kind := .bool, span := 7 } }

/-- Witness for claim C4 at a concrete argument list: the private boolean
argument is constrained. -/
theorem inputs_constrained_regardless_of_visibility_witness :
    Event.constrainInputs TyKind.bool 7 ∈
      [Event.addPublicInputs "x" 1 4, Event.constrainInputs TyKind.field 5,
       Event.addPrivateInputs "y" 1 6, Event.constrainInputs TyKind.bool 7] :=
  inputs_constrained_regardless_of_visibility (fun _ => .ok 0)
    (fun _ _ => none) [argPubField, argPrivBool] _ rfl argPrivBool (by decide)

/-- Claim C6 counterexample: an array of booleans is a fixed-size array of a
scalar type, yet its width is not the array length — the computation aborts
at `unimplemented!()` instead. -/
theorem input_width_counterexample :
    computeInputLen (fun _ => .ok 0) (.array .bool 2) = .fatal "not implemented" ∧
    computeInputLen (fun _ => .ok 0) (.array .bool 2) ≠ .ok 2 := by
  constructor
  · rfl
  · decide

/-- Claim C6 (amended): the width is 1 for the scalar types `Field` and
`Bool`, the array length for a fixed-size array of `Field` elements (an array
of any other element type aborts as unimplemented), and the generic `size_of`
computation for other composite types. -/
theorem input_width_amended (so : TyKind → CResult Nat) (n : Nat) (t : TyKind)
    (s : String) (ht : t ≠ .field) :
    computeInputLen so .field = .ok 1 ∧
    computeInputLen so .bool = .ok 1 ∧
    computeInputLen so (.array .field n) = .ok n ∧
    computeInputLen so (.array t n) = .fatal "not implemented" ∧
    computeInputLen so (.custom s) = so (.custom s) := by
  refine ⟨rfl, rfl, by simp [computeInputLen], ?_, rfl⟩
  simp [computeInputLen, ht]

/-- Witness for the amended claim C6 at a concrete unsupported array type. -/
theorem input_width_amended_witness :
    computeInputLen (fun _ => .ok 0) (.array .bool 3) = .fatal "not implemented" :=
  (input_width_amended (fun _ => .ok 0) 3 .bool "S" (by decide)).2.2.2.1

/-- Claim C7 counterexample: an unsupported argument shape (array of
booleans) and an unsupported return type shape (boolean) are not reported as
typed user-facing errors; `generate_circuit` aborts the process at
`unimplemented!()`. -/
theorem unsupported_shape_counterexample :
    processArg (fun _ => .ok 0) (fun _ _ => none) argArrayOfBool =
      .fatal "not implemented" ∧
    (processArg (fun _ => .ok 0) (fun _ _ => none) argArrayOfBool).isErr = false ∧
    processReturnType (some { kind := .bool, span := 13 }) = .fatal "not implemented" ∧
    (processReturnType (some { kind := .bool, span := 13 })).isErr = false := by
  refine ⟨rfl, rfl, rfl, rfl⟩

/-- Claim C7 (amended): an entry-function argument whose type is an array of
a non-`Field` element, or a non-`Field` return type, makes `generate_circuit`
abort the process via `unimplemented!()` — it is not reported as a typed,
span-carrying error the way the other core error kinds are. -/
theorem unsupported_shape_amended (so : TyKind → CResult Nat)
    (co : TyKind → Span → Option Error) (arg : FnArg) (t : TyKind) (n : Nat)
    (ty : Ty) (harr : arg.typ.kind = .array t n) (ht : t ≠ .field)
    (hty : ty.kind ≠ .field) :
    processArg so co arg = .fatal "not implemented" ∧
    (processArg so co arg).isErr = false ∧
    processReturnType (some ty) = .fatal "not implemented" ∧
    (processReturnType (some ty)).isErr = false := by
  have h1 : processArg so co arg = .fatal "not implemented" := by
    unfold processArg
    rw [harr]
    simp [computeInputLen, ht]
  have h2 : processReturnType (some ty) = .fatal "not implemented" := by
    unfold processReturnType
    simp [hty]
  exact ⟨h1, by rw [h1]; rfl, h2, by rw [h2]; rfl⟩

/-- Witness for the amended claim C7 at the concrete array-of-boolean
argument. -/
theorem unsupported_shape_amended_witness :
    processArg (fun _ => CResult.ok 0) (fun _ _ => none) argArrayOfBool =
      .fatal "not implemented" :=
  (unsupported_shape_amended (fun _ => .ok 0) (fun _ _ => none) argArrayOfBool
    .bool 4 { kind := .bool, span := 13 } rfl (by decide) (by decide)).1

theorem flushPendingGate_nextVariable (st : CWState) :
    (flushPendingGate st).nextVariable = st.nextVariable := by
  unfold flushPendingGate addGate
  split <;> rfl

theorem flushPendingGate_privateInputIndices (st : CWState) :
    (flushPendingGate st).privateInputIndices = st.privateInputIndices := by
  unfold flushPendingGate addGate
  split <;> rfl

theorem flushPendingGate_mainSpan (st : CWState) :
    (flushPendingGate st).mainSpan = st.mainSpan := by
  unfold flushPendingGate addGate
  split <;> rfl

theorem flushPendingGate_pending_none (st : CWState) :
    (flushPendingGate st).pendingGenericGate = none := by
  unfold flushPendingGate addGate
  split
  · rfl
  · rename_i heq
    exact heq

theorem finalizeTail_ok_pending_none (t t' : CWState)
    (h : finalizeTail t = .ok t') : t'.pendingGenericGate = none := by
  unfold finalizeTail at h
  split at h
  · cases h
    exact flushPendingGate_pending_none t
  · exact absurd h (by simp)
  · exact absurd h (by simp)

theorem sanityLoop_ok_mem (w p : List Nat) (s : Span) (l : List Nat) (u : Unit)
    (h : sanityLoop w p s l = .ok u) : ∀ v ∈ l, v ∈ w := by
  induction l with
  | nil =>
    intro v hv
    exact absurd hv (by simp)
  | cons a rest ih =>
    intro v hv
    unfold sanityLoop at h
    by_cases ha : a ∈ w
    · rw [if_pos ha] at h
      rcases List.mem_cons.mp hv with rfl | hmem
      · exact ha
      · exact ih h v hmem
    · rw [if_neg ha] at h
      by_cases hp : a ∈ p
      · rw [if_pos hp] at h
        exact absurd h (by simp)
      · rw [if_neg hp] at h
        exact absurd h (by simp)

theorem sanityLoop_all_written (w p : List Nat) (s : Span) (l : List Nat)
    (h : ∀ u ∈ l, u ∈ w) : sanityLoop w p s l = .ok () := by
  induction l with
  | nil => rfl
  | cons a rest ih =>
    have ha : a ∈ w := h a (by simp)
    rw [sanityLoop, if_pos ha]
    exact ih (fun u hu => h u (by simp [hu]))

theorem sanityLoop_append (w p : List Nat) (s : Span) (l1 l2 : List Nat) :
    sanityLoop w p s (l1 ++ l2) =
      match sanityLoop w p s l1 with
      | .ok _ => sanityLoop w p s l2
      | .err e => .err e
      | .fatal m => .fatal m := by
  induction l1 with
  | nil => simp [sanityLoop]
  | cons a rest ih =>
    by_cases ha : a ∈ w
    · simp [sanityLoop, ha, ih]
    · by_cases hp : a ∈ p <;> simp [sanityLoop, ha, hp]

theorem sanityPass_first_unwritten (w p : List Nat) (s : Span) (v n : Nat)
    (hvn : v < n) (hv : v ∉ w) (hfirst : ∀ u < v, u ∈ w) :
    sanityPass w p s n =
      if v ∈ p then .err { kind := .PrivateInputNotUsed, span := s }
      else .fatal danglingMsg := by
  induction n with
  | zero => omega
  | succ m ih =>
    unfold sanityPass
    rw [List.range_succ, sanityLoop_append]
    by_cases hvm : v < m
    · have hm := ih hvm
      unfold sanityPass at hm
      rw [hm]
      by_cases hp : v ∈ p <;> simp [hp]
    · have hveq : v = m := by omega
      subst hveq
      have hall : sanityLoop w p s (List.range v) = .ok () :=
        sanityLoop_all_written w p s _ (fun u hu => hfirst u (List.mem_range.mp hu))
      rw [hall]
      simp [sanityLoop, hv]

/-- Claim C1: if the finalization phase of `generate_circuit` succeeds (the
circuit is marked finalized), then every cell-var id below `next_variable`
appears in at least one cell of the finalized `rows_of_vars`; no allocated id
is silently absent from the circuit. -/
theorem finalized_circuit_covers_all_cellvars (st st' : CWState)
    (h : finalizeTail st = .ok st') :
    ∀ v < st.nextVariable, v ∈ writtenVars st'.rowsOfVars := by
  intro v hv
  unfold finalizeTail at h
  split at h
  · rename_i u hu
    cases h
    cases u
    have hm : v ∈ List.range ((flushPendingGate st).nextVariable) :=
      List.mem_range.mpr (by rw [flushPendingGate_nextVariable]; exact hv)
    exact sanityLoop_ok_mem _ _ _ _ () hu v hm
  · exact absurd h (by simp)
  · exact absurd h (by simp)

/-- Witness for claim C1 at a concrete finalizable state. -/
theorem finalized_circuit_covers_all_cellvars_witness :
    0 ∈ writtenVars ({ stSimple with finalized := true } : CWState).rowsOfVars :=
  finalized_circuit_covers_all_cellvars stSimple
    { stSimple with finalized := true } rfl 0 (by decide)

/-- Claim C3: in the finalization sanity pass, a cell-var id that appears in
no wire slot makes `generate_circuit` return the typed `PrivateInputNotUsed`
error at the main-function span when the id is a recorded private input index,
and abort by panic otherwise; in neither case does finalization succeed. The
id considered is the first unwritten one, since the source loop reports the
lowest dangling id. -/
theorem sanity_pass_error_policy (st : CWState) (v : Nat)
    (hv : v < st.nextVariable)
    (hunw : v ∉ writtenVars (flushPendingGate st).rowsOfVars)
    (hfirst : ∀ u < v, u ∈ writtenVars (flushPendingGate st).rowsOfVars) :
    (v ∈ st.privateInputIndices →
      finalizeTail st = .err { kind := .PrivateInputNotUsed, span := st.mainSpan }) ∧
    (v ∉ st.privateInputIndices → finalizeTail st = .fatal danglingMsg) ∧
    (∀ st2, finalizeTail st ≠ .ok st2) := by
  have e1 := flushPendingGate_nextVariable st
  have e2 := flushPendingGate_privateInputIndices st
  have e3 := flushPendingGate_mainSpan st
  have hsp := sanityPass_first_unwritten
    (writtenVars (flushPendingGate st).rowsOfVars)
    (flushPendingGate st).privateInputIndices
    (flushPendingGate st).mainSpan v (flushPendingGate st).nextVariable
    (by rw [e1]; exact hv) hunw hfirst
  rw [e2, e3] at hsp
  by_cases hp : v ∈ st.privateInputIndices
  · rw [if_pos hp] at hsp
    have hft : finalizeTail st =
        .err { kind := .PrivateInputNotUsed, span := st.mainSpan } := by
      unfold finalizeTail
      rw [e2, e3, hsp]
    exact ⟨fun _ => hft, fun hnp => absurd hp hnp,
      fun st2 h2 => by rw [hft] at h2; simp at h2⟩
  · rw [if_neg hp] at hsp
    have hft : finalizeTail st = .fatal danglingMsg := by
      unfold finalizeTail
      rw [e2, e3, hsp]
    exact ⟨fun hp2 => absurd hp2 hp, fun _ => hft,
      fun st2 h2 => by rw [hft] at h2; simp at h2⟩

/-- Witness for claim C3 at a concrete state with an unused private input. -/
theorem sanity_pass_error_policy_witness :
    finalizeTail stUnusedPriv =
      .err { kind := .PrivateInputNotUsed, span := 7 } :=
  (sanity_pass_error_policy stUnusedPriv 0 (by decide) (by decide)
    (fun u hu => absurd hu (by omega))).1 (by decide)

/-- Claim C8: a pending gate still buffered after body compilation is flushed
as one physical `DoubleGeneric` row carrying its label, wire vars,
coefficients and span; the flush happens before the sanity pass (which reads
the flushed rows), and after a successful finalization no pending gate
remains buffered. -/
theorem pending_gate_flushed_before_sanity (st : CWState) (p : PendingGate)
    (h : st.pendingGenericGate = some p) :
    (flushPendingGate st).gates = st.gates ++
      [{ label := p.label, typ := .DoubleGeneric, coeffs := p.coeffs, span := p.span }] ∧
    (flushPendingGate st).rowsOfVars = st.rowsOfVars ++ [p.vars] ∧
    (flushPendingGate st).pendingGenericGate = none ∧
    (∀ st', finalizeTail st = .ok st' →
      st'.pendingGenericGate = none ∧
      st'.gates = st.gates ++
        [{ label := p.label, typ := .DoubleGeneric, coeffs := p.coeffs, span := p.span }] ∧
      st'.rowsOfVars = st.rowsOfVars ++ [p.vars] ∧
      sanityPass (writtenVars (st.rowsOfVars ++ [p.vars])) st.privateInputIndices
        st.mainSpan st.nextVariable = .ok ()) ∧
    (∀ t t' : CWState, finalizeTail t = .ok t' → t'.pendingGenericGate = none) := by
  have hfl : flushPendingGate st =
      addGate { st with pendingGenericGate := none } p.label .DoubleGeneric
        p.vars p.coeffs p.span := by
    unfold flushPendingGate
    rw [h]
  have hg : (flushPendingGate st).gates = st.gates ++
      [{ label := p.label, typ := .DoubleGeneric, coeffs := p.coeffs, span := p.span }] := by
    rw [hfl]; rfl
  have hr : (flushPendingGate st).rowsOfVars = st.rowsOfVars ++ [p.vars] := by
    rw [hfl]; rfl
  refine ⟨hg, hr, flushPendingGate_pending_none st, ?_, finalizeTail_ok_pending_none⟩
  intro st' h2
  unfold finalizeTail at h2
  split at h2
  · rename_i u hu
    cases h2
    cases u
    rw [hr, flushPendingGate_privateInputIndices, flushPendingGate_mainSpan,
        flushPendingGate_nextVariable] at hu
    exact ⟨flushPendingGate_pending_none st, hg, hr, hu⟩
  · exact absurd h2 (by simp)
  · exact absurd h2 (by simp)

/-- Witness for claim C8 at a concrete state with a buffered pending gate. -/
theorem pending_gate_flushed_before_sanity_witness :
    (flushPendingGate stWithPending).rowsOfVars =
      stWithPending.rowsOfVars ++ [pendingSample.vars] :=
  (pending_gate_flushed_before_sanity stWithPending pendingSample rfl).2.1

/-- Claim C10: `ProverIndex::prove` runs the witness-satisfiability pre-check
if and only if its debug flag is true; the pre-check happens before proof
construction, a failing pre-check aborts by panic (through `unwrap`) rather
than returning a typed error, and with debug false no pre-check occurs before
the proof is created. -/
theorem prove_debug_precheck {π : Type} (gw : GeneratedWitness)
    (iv : List (List VestaField) → List VestaField → Bool)
    (cp : List (List VestaField) → CResult π) :
    (iv gw.allWitness gw.fullPublicInputs = true →
      (proverIndexProve (.ok gw) iv cp true).2 =
        [.generateWitness, .debugPrintWitness, .witnessPreCheck, .createProof]) ∧
    (iv gw.allWitness gw.fullPublicInputs = false →
      proverIndexProve (.ok gw) iv cp true =
        (.fatal "called unwrap on an Err value",
         [.generateWitness, .debugPrintWitness, .witnessPreCheck])) ∧
    ((proverIndexProve (.ok gw) iv cp false).2 =
      [.generateWitness, .createProof]) ∧
    (ProveStep.witnessPreCheck ∉ (proverIndexProve (.ok gw) iv cp false).2) := by
  refine ⟨?_, ?_, ?_, ?_⟩
  · intro hiv
    cases hcp : cp gw.allWitness <;> simp [proverIndexProve, hiv, hcp]
  · intro hiv
    simp [proverIndexProve, hiv]
  · cases hcp : cp gw.allWitness <;> simp [proverIndexProve, hcp]
  · cases hcp : cp gw.allWitness <;> simp [proverIndexProve, hcp]

/-- Witness for claim C10 at concrete oracles with a failing pre-check. -/
theorem prove_debug_precheck_witness :
    proverIndexProve (.ok { allWitness := [], fullPublicInputs := [], publicOutputs := [] })
      (fun _ _ => false) (fun _ => (CResult.ok 7 : CResult Nat)) true =
      (.fatal "called unwrap on an Err value",
       [.generateWitness, .debugPrintWitness, .witnessPreCheck]) :=
  (prove_debug_precheck { allWitness := [], fullPublicInputs := [], publicOutputs := [] }
    (fun _ _ => false) (fun _ => (CResult.ok 7 : CResult Nat))).2.1 rfl

/-- Claim C5: for the one-function program computing return input + 1 over a
public input of 1, the witness generator resolves the public output to 2, and
backend verification of the honestly generated proof succeeds against full
public inputs [1, 2] and fails against [1, 1]. -/
theorem public_output_round_trip :
    roundTripPublicOutput = some 2 ∧
    roundTripFullPublicInputs = some [1, 2] ∧
    kimchiAccepts roundTripFullPublicInputs [1, 2] = true ∧
    kimchiAccepts roundTripFullPublicInputs [1, 1] = false := by
  refine ⟨by decide, by decide, by decide, by decide⟩

theorem getD_append_left {α : Type} (l : List α) (a d : α) (j : Nat)
    (hj : j < l.length) : (l ++ [a]).getD j d = l.getD j d := by
  induction l generalizing j with
  | nil => exact absurd hj (by simp)
  | cons b t ih =>
    cases j with
    | zero => rfl
    | succ j2 => exact ih j2 (by simpa using hj)

theorem getD_append_last {α : Type} (l : List α) (a d : α) :
    (l ++ [a]).getD l.length d = a := by
  induction l with
  | nil => rfl
  | cons b t ih => exact ih

theorem getD_eq_get {α : Type} (l : List α) (d : α) (j : Nat)
    (hj : j < l.length) : l.getD j d = l.get ⟨j, hj⟩ := by
  induction l generalizing j with
  | nil => exact absurd hj (by simp)
  | cons a t ih =>
    cases j with
    | zero => rfl
    | succ j2 => exact ih j2 (by simpa using hj)

theorem getD_nodup_inj {α : Type} (l : List α) (hnd : l.Nodup) (d : α)
    (i j : Nat) (hi : i < l.length) (hj : j < l.length)
    (h : l.getD i d = l.getD j d) : i = j := by
  rw [getD_eq_get l d i hi, getD_eq_get l d j hj] at h
  have h2 := List.nodup_iff_injective_get.mp hnd h
  exact congrArg Fin.val h2

theorem wireCells_not_mem (w : Cell → Cell) (prev : Cell) (l : List Cell)
    (x : Cell) (hx : x ∉ l) : wireCells w prev l x = w x := by
  induction l generalizing w prev with
  | nil => rfl
  | cons c rest ih =>
    have hxc : x ≠ c := fun he => hx (he ▸ List.mem_cons_self c rest)
    have hxr : x ∉ rest := fun hr => hx (List.mem_cons_of_mem _ hr)
    have h2 := ih (fun y => if y = c then prev else w y) c hxr
    rw [wireCells, h2]
    simp [hxc]

theorem wireCells_head (w : Cell → Cell) (prev c : Cell) (rest : List Cell)
    (hc : c ∉ rest) : wireCells w prev (c :: rest) c = prev := by
  rw [wireCells, wireCells_not_mem _ _ _ _ hc]
  simp

theorem wireCells_getD_succ (l : List Cell) (hnd : l.Nodup) (w : Cell → Cell)
    (prev d : Cell) (j : Nat) (hj : j + 1 < l.length) :
    wireCells w prev l (l.getD (j + 1) d) = l.getD j d := by
  induction l generalizing w prev j with
  | nil => exact absurd hj (by simp)
  | cons c rest ih =>
    rcases List.nodup_cons.mp hnd with ⟨hcr, hndr⟩
    cases j with
    | zero =>
      cases rest with
      | nil => exact absurd hj (by simp)
      | cons c2 rest2 =>
        rcases List.nodup_cons.mp hndr with ⟨hc2, _⟩
        exact wireCells_head (fun x => if x = c then prev else w x) c c2 rest2 hc2
    | succ j2 =>
      exact ih hndr (fun x => if x = c then prev else w x) c j2 (by simpa using hj)

theorem wireCells_getD_zero (l : List Cell) (hnd : l.Nodup) (w : Cell → Cell)
    (prev d : Cell) (h0 : 0 < l.length) :
    wireCells w prev l (l.getD 0 d) = prev := by
  cases l with
  | nil => exact absurd h0 (by simp)
  | cons c rest =>
    rcases List.nodup_cons.mp hnd with ⟨hcr, _⟩
    exact wireCells_head w prev c rest hcr

theorem wireClass_not_mem (cells : List Cell) (w : Cell → Cell) (x : Cell)
    (hx : x ∉ cells) : wireClass w cells x = w x := by
  cases cells with
  | nil => rfl
  | cons first rest =>
    have hx2 : x ∉ rest ++ [first] := by
      intro hmem
      rcases List.mem_append.mp hmem with hr | hf
      · exact hx (List.mem_cons_of_mem _ hr)
      · simp at hf
        exact hx (hf ▸ List.mem_cons_self _ _)
    exact wireCells_not_mem w first (rest ++ [first]) x hx2

theorem wireClass_getD_pred (cells : List Cell) (hnd : cells.Nodup)
    (hlen : 2 ≤ cells.length) (w : Cell → Cell) (d : Cell) (j : Nat)
    (hj : j < cells.length) :
    wireClass w cells (cells.getD j d) =
      cells.getD ((j + cells.length - 1) % cells.length) d := by
  cases cells with
  | nil => exact absurd hlen (by simp)
  | cons first rest =>
    cases rest with
    | nil => exact absurd hlen (by simp)
    | cons r0 rest2 =>
      rcases List.nodup_cons.mp hnd with ⟨hf, hnd1⟩
      have hndL : ((r0 :: rest2) ++ [first]).Nodup :=
        hnd1.append (List.nodup_singleton first)
          (by intro a ha hb; simp at hb; exact hf (hb ▸ ha))
      simp only [List.length_cons] at hj ⊢
      cases j with
      | zero =>
        have e1 : 0 + (rest2.length + 1 + 1) - 1 = rest2.length + 1 := by omega
        have e2 : (rest2.length + 1) % (rest2.length + 1 + 1) = rest2.length + 1 :=
          Nat.mod_eq_of_lt (by omega)
        rw [e1, e2]
        have hlast : ((r0 :: rest2) ++ [first]).getD (rest2.length + 1) d = first :=
          getD_append_last (r0 :: rest2) first d
        have hstep := wireCells_getD_succ ((r0 :: rest2) ++ [first]) hndL w first d
          rest2.length
          (by simp only [List.length_append, List.length_cons, List.length_singleton]; omega)
        rw [hlast] at hstep
        have hL : ((r0 :: rest2) ++ [first]).getD rest2.length d =
            (r0 :: rest2).getD rest2.length d :=
          getD_append_left (r0 :: rest2) first d rest2.length (by simp)
        rw [hL] at hstep
        exact hstep
      | succ jj =>
        cases jj with
        | zero =>
          have e1 : 0 + 1 + (rest2.length + 1 + 1) - 1 = rest2.length + 1 + 1 := by
            omega
          rw [e1, Nat.mod_self]
          exact wireCells_getD_zero ((r0 :: rest2) ++ [first]) hndL w first d
            (by simp)
        | succ j2 =>
          have e1 : j2 + 1 + 1 + (rest2.length + 1 + 1) - 1 =
              j2 + 1 + (rest2.length + 1 + 1) := by omega
          rw [e1, Nat.add_mod_right, Nat.mod_eq_of_lt (by omega)]
          have harg : ((r0 :: rest2) ++ [first]).getD (j2 + 1) d =
              (r0 :: rest2).getD (j2 + 1) d :=
            getD_append_left (r0 :: rest2) first d (j2 + 1)
              (by simp only [List.length_cons]; omega)
          have hstep := wireCells_getD_succ ((r0 :: rest2) ++ [first]) hndL w first d
            j2
            (by simp only [List.length_append, List.length_cons, List.length_singleton]; omega)
          rw [harg] at hstep
          have hfin : ((r0 :: rest2) ++ [first]).getD j2 d =
              (r0 :: rest2).getD j2 d :=
            getD_append_left (r0 :: rest2) first d j2
              (by simp only [List.length_cons]; omega)
          rw [hfin] at hstep
          exact hstep

theorem wireClass_iterate (cells : List Cell) (hnd : cells.Nodup)
    (hlen : 2 ≤ cells.length) (w : Cell → Cell) (d : Cell) (i : Nat)
    (hi : i < cells.length) :
    ∀ k, k ≤ cells.length →
      (wireClass w cells)^[k] (cells.getD i d) =
        cells.getD ((i + cells.length - k) % cells.length) d := by
  intro k
  induction k with
  | zero =>
    intro _
    have e : (i + cells.length - 0) % cells.length = i := by
      rw [Nat.sub_zero, Nat.add_mod_right]
      exact Nat.mod_eq_of_lt hi
    rw [Function.iterate_zero_apply, e]
  | succ k2 ih =>
    intro hk
    have hk2 : k2 ≤ cells.length := by omega
    rw [Function.iterate_succ_apply', ih hk2]
    rw [wireClass_getD_pred cells hnd hlen w d _ (Nat.mod_lt _ (by omega))]
    have e1 : (i + cells.length - k2) % cells.length + cells.length - 1 =
        (i + cells.length - k2) % cells.length + (cells.length - 1) := by omega
    have e2 : ((i + cells.length - k2) % cells.length + (cells.length - 1)) %
          cells.length =
        ((i + cells.length - k2) + (cells.length - 1)) % cells.length :=
      Nat.ModEq.add_right _ (Nat.mod_modEq _ _)
    have e3 : (i + cells.length - k2) + (cells.length - 1) =
        (i + cells.length - (k2 + 1)) + cells.length := by omega
    have e4 : ((i + cells.length - (k2 + 1)) + cells.length) % cells.length =
        (i + cells.length - (k2 + 1)) % cells.length := Nat.add_mod_right _ _
    rw [e1, e2, e3, e4]

theorem mod_sub_cancel (n i k1 k2 : Nat) (_hi : i < n) (hk1 : k1 < n)
    (hk2 : k2 < n) (h : (i + n - k1) % n = (i + n - k2) % n) : k1 = k2 := by
  rcases Nat.le_total k1 k2 with hle | hle
  · have hab : i + n - k2 ≤ i + n - k1 := by omega
    have hdvd : n ∣ (i + n - k1) - (i + n - k2) :=
      (Nat.modEq_iff_dvd' hab).mp h.symm
    have heq : (i + n - k1) - (i + n - k2) = k2 - k1 := by omega
    rw [heq] at hdvd
    have hz : k2 - k1 = 0 := Nat.eq_zero_of_dvd_of_lt hdvd (by omega)
    omega
  · have hab : i + n - k1 ≤ i + n - k2 := by omega
    have hdvd : n ∣ (i + n - k2) - (i + n - k1) :=
      (Nat.modEq_iff_dvd' hab).mp h
    have heq : (i + n - k2) - (i + n - k1) = k1 - k2 := by omega
    rw [heq] at hdvd
    have hz : k1 - k2 = 0 := Nat.eq_zero_of_dvd_of_lt hdvd (by omega)
    omega

theorem applyWirings_untouched (ws : List Wiring) :
    ∀ (w w2 : Cell → Cell) (x : Cell),
      applyWirings w ws = .ok w2 →
      (∀ anns2, Wiring.wired anns2 ∈ ws → x ∉ anns2.map AnnotatedCell.cell) →
      w2 x = w x := by
  induction ws with
  | nil =>
    intro w w2 x h _
    cases h
    rfl
  | cons wi rest ih =>
    intro w w2 x h hx
    unfold applyWirings at h
    split at h
    · rename_i w3 hw3
      have hxr : ∀ anns2, Wiring.wired anns2 ∈ rest →
          x ∉ anns2.map AnnotatedCell.cell :=
        fun anns2 hm => hx anns2 (List.mem_cons_of_mem _ hm)
      have h2 := ih w3 w2 x h hxr
      rw [h2]
      cases wi with
      | notWired c =>
        cases hw3
        rfl
      | wired anns2 =>
        have hxa : x ∉ anns2.map AnnotatedCell.cell :=
          hx anns2 (List.mem_cons_self _ _)
        simp only [processWiring] at hw3
        split at hw3
        · cases hw3
          exact wireClass_not_mem _ w x hxa
        · exact absurd hw3 (by simp)
    · exact absurd h (by simp)
    · exact absurd h (by simp)

theorem applyWirings_total (ws : List Wiring)
    (hws : ∀ cells, Wiring.wired cells ∈ ws → 2 ≤ cells.length) :
    ∀ w, ∃ w2, applyWirings w ws = .ok w2 := by
  induction ws with
  | nil =>
    intro w
    exact ⟨w, rfl⟩
  | cons wi rest ih =>
    intro w
    cases wi with
    | notWired c =>
      obtain ⟨w2, h2⟩ := ih (fun cells hm => hws cells (List.mem_cons_of_mem _ hm)) w
      exact ⟨w2, h2⟩
    | wired anns =>
      have hlen : 2 ≤ anns.length := hws anns (List.mem_cons_self _ _)
      obtain ⟨w2, h2⟩ := ih (fun cells hm => hws cells (List.mem_cons_of_mem _ hm))
        (wireClass w (anns.map AnnotatedCell.cell))
      refine ⟨w2, ?_⟩
      unfold applyWirings
      have hpw : processWiring w (.wired anns) =
          .ok (wireClass w (anns.map AnnotatedCell.cell)) := by
        simp only [processWiring]
        rw [if_pos (by simp only [List.length_map]; omega)]
      rw [hpw]
      exact h2

theorem addWire_wired_len (m : List (Nat × Wiring)) (key : Nat)
    (c : AnnotatedCell)
    (hm : ∀ k cells, (k, Wiring.wired cells) ∈ m → 2 ≤ cells.length) :
    ∀ k cells, (k, Wiring.wired cells) ∈ addWire m key c → 2 ≤ cells.length := by
  induction m with
  | nil =>
    intro k cells h
    simp [addWire] at h
  | cons p rest ih =>
    obtain ⟨k0, wv⟩ := p
    intro k cells h
    unfold addWire at h
    by_cases hk : k0 = key
    · rw [if_pos hk] at h
      cases wv with
      | notWired c0 =>
        rcases List.mem_cons.mp h with heq | hmem
        · rw [Prod.mk.injEq] at heq
          obtain ⟨-, h2⟩ := heq
          injection h2 with h3
          rw [h3]
          simp
        · exact hm k cells (List.mem_cons_of_mem _ hmem)
      | wired l =>
        rcases List.mem_cons.mp h with heq | hmem
        · rw [Prod.mk.injEq] at heq
          obtain ⟨-, h2⟩ := heq
          injection h2 with h3
          rw [h3]
          have hl : 2 ≤ l.length := hm k0 l (List.mem_cons_self _ _)
          simp only [List.length_append, List.length_singleton]
          omega
        · exact hm k cells (List.mem_cons_of_mem _ hmem)
    · rw [if_neg hk] at h
      rcases List.mem_cons.mp h with heq | hmem
      · exact hm k cells (by rw [heq]; exact List.mem_cons_self _ _)
      · exact ih (fun k2 c2 h2 => hm k2 c2 (List.mem_cons_of_mem _ h2)) k cells hmem

theorem buildWiringFrom_wired_len (ops : List (Nat × AnnotatedCell)) :
    ∀ m, (∀ k cells, (k, Wiring.wired cells) ∈ m → 2 ≤ cells.length) →
      ∀ k cells, (k, Wiring.wired cells) ∈ buildWiringFrom m ops →
        2 ≤ cells.length := by
  induction ops with
  | nil =>
    intro m hm
    exact hm
  | cons p ops2 ih =>
    obtain ⟨k0, c0⟩ := p
    intro m hm
    exact ih (addWire m k0 c0) (addWire_wired_len m k0 c0 hm)

/-- Claim C2: every `Wiring::Wired` class processed by `compile_to_indexes`
is linearized into exactly one closed cycle in insertion order — each listed
cell points at the preceding cell and the first cell points at the last —
so that following the links from any member visits each of the class's
distinct positions exactly once and returns to the start, while positions in
no wired class keep their default self-wiring. Stated for a class of distinct
positions (an equivalence class lists distinct cells) that passes the size
assertion. -/
theorem wired_class_closed_cycle (anns : List AnnotatedCell) (w : Cell → Cell)
    (cells : List Cell) (hc : cells = anns.map AnnotatedCell.cell)
    (hnd : cells.Nodup) (hlen : 2 ≤ cells.length) :
    processWiring w (.wired anns) = .ok (wireClass w cells) ∧
    (∀ x, x ∉ cells → wireClass w cells x = w x) ∧
    (∀ d j, j + 1 < cells.length →
      wireClass w cells (cells.getD (j + 1) d) = cells.getD j d) ∧
    (∀ d, wireClass w cells (cells.getD 0 d) =
      cells.getD (cells.length - 1) d) ∧
    (∀ d i, i < cells.length →
      (wireClass w cells)^[cells.length] (cells.getD i d) = cells.getD i d) ∧
    (∀ d i j, i < cells.length → j < cells.length →
      ∃ k, k < cells.length ∧
        (wireClass w cells)^[k] (cells.getD i d) = cells.getD j d) ∧
    (∀ d i k1 k2, i < cells.length → k1 < cells.length → k2 < cells.length →
      (wireClass w cells)^[k1] (cells.getD i d) =
        (wireClass w cells)^[k2] (cells.getD i d) → k1 = k2) ∧
    (∀ ws w2, applyWirings defaultWires ws = .ok w2 →
      ∀ x, (∀ anns2, Wiring.wired anns2 ∈ ws → x ∉ anns2.map AnnotatedCell.cell) →
        w2 x = x) := by
  refine ⟨?_, ?_, ?_, ?_, ?_, ?_, ?_, ?_⟩
  · simp only [processWiring]
    rw [if_pos (show 1 < (anns.map AnnotatedCell.cell).length by rw [← hc]; omega)]
    rw [hc]
  · intro x hx
    exact wireClass_not_mem cells w x hx
  · intro d j hj
    rw [wireClass_getD_pred cells hnd hlen w d (j + 1) (by omega)]
    have e1 : j + 1 + cells.length - 1 = j + cells.length := by omega
    rw [e1, Nat.add_mod_right, Nat.mod_eq_of_lt (by omega)]
  · intro d
    rw [wireClass_getD_pred cells hnd hlen w d 0 (by omega)]
    have e1 : 0 + cells.length - 1 = cells.length - 1 := by omega
    rw [e1, Nat.mod_eq_of_lt (by omega)]
  · intro d i hi
    rw [wireClass_iterate cells hnd hlen w d i hi cells.length le_rfl]
    have e1 : i + cells.length - cells.length = i := by omega
    rw [e1, Nat.mod_eq_of_lt hi]
  · intro d i j hi hj
    by_cases hji : j ≤ i
    · refine ⟨i - j, by omega, ?_⟩
      rw [wireClass_iterate cells hnd hlen w d i hi (i - j) (by omega)]
      have e1 : i + cells.length - (i - j) = cells.length + j := by omega
      rw [e1, Nat.add_mod_left, Nat.mod_eq_of_lt hj]
    · refine ⟨i + cells.length - j, by omega, ?_⟩
      rw [wireClass_iterate cells hnd hlen w d i hi (i + cells.length - j)
        (by omega)]
      have e1 : i + cells.length - (i + cells.length - j) = j := by omega
      rw [e1, Nat.mod_eq_of_lt hj]
  · intro d i k1 k2 hi hk1 hk2 hiter
    rw [wireClass_iterate cells hnd hlen w d i hi k1 (by omega),
        wireClass_iterate cells hnd hlen w d i hi k2 (by omega)] at hiter
    have hidx := getD_nodup_inj cells hnd d _ _ (Nat.mod_lt _ (by omega))
      (Nat.mod_lt _ (by omega)) hiter
    exact mod_sub_cancel cells.length i k1 k2 hi hk1 hk2 hidx
  · intro ws w2 h x hx
    have h2 := applyWirings_untouched ws defaultWires w2 x h hx
    rw [h2]
    rfl

/-- Witness for claim C2 at a concrete two-cell wired class. -/
theorem wired_class_closed_cycle_witness :
    processWiring defaultWires (.wired [annA, annB]) =
      .ok (wireClass defaultWires [annA.cell, annB.cell]) :=
  (wired_class_closed_cycle [annA, annB] defaultWires [annA.cell, annB.cell]
    rfl (by decide) (by decide)).1

/-- Claim C9: every `Wiring::Wired` entry of a wiring map produced by the
circuit writer's accumulation discipline has at least two cells, so the size
assertion of `compile_to_indexes` never fails on such maps: each wired class
passes the assertion and the whole wiring loop completes without aborting. -/
theorem wired_lists_have_two_cells (ops : List (Nat × AnnotatedCell))
    (key : Nat) (cells : List AnnotatedCell)
    (h : (key, Wiring.wired cells) ∈ buildWiring ops) :
    2 ≤ cells.length ∧
    processWiring defaultWires (.wired cells) =
      .ok (wireClass defaultWires (cells.map AnnotatedCell.cell)) ∧
    (∀ w : Cell → Cell, ∃ w2,
      applyWirings w ((buildWiring ops).map Prod.snd) = .ok w2) := by
  have hbase : ∀ k c2, (k, Wiring.wired c2) ∈ ([] : List (Nat × Wiring)) →
      2 ≤ c2.length := by
    intro k c2 h2
    exact absurd h2 (by simp)
  have hlen : 2 ≤ cells.length :=
    buildWiringFrom_wired_len ops [] hbase key cells h
  refine ⟨hlen, ?_, ?_⟩
  · simp only [processWiring]
    rw [if_pos (by simp only [List.length_map]; omega)]
  · intro w
    apply applyWirings_total
    intro cells2 hm
    rcases List.mem_map.mp hm with ⟨⟨k2, wv⟩, hmem, hval⟩
    have hval2 : wv = Wiring.wired cells2 := hval
    subst hval2
    exact buildWiringFrom_wired_len ops [] hbase k2 cells2 hmem

/-- Witness for claim C9 at a concrete two-occurrence wiring history. -/
theorem wired_lists_have_two_cells_witness :
    2 ≤ ([annA, annB] : List AnnotatedCell).length :=
  (wired_lists_have_two_cells [(0, annA), (0, annB)] 0 [annA, annB]
    (by decide)).1

end Noname
